import Mathlib

/-!
Shallow embedding of `src/app.py` (Reddit crypto sentiment analyzer).

The program has three pipeline stages:
  * `fetch_reddit_data` (Collector): iterates over two item kinds
    (submission, comment) and a list of subreddits, issues one HTTP
    request per (kind, subreddit) pair, calls `raise_for_status` on each
    response, and normalizes the returned JSON items into flat records
    `{text, created_utc}`.
  * `analyze_sentiments` (Scorer): maps each raw item to a row
    `{date, polarity}` and sorts the resulting DataFrame by `date`.
    `pd.DataFrame([]).sort_values("date")` raises a `KeyError` because the
    empty frame has no `date` column; we model this fallibility with
    `Option`.
  * `merge_df` (Aligner): sorts both frames by `date` and performs
    `pd.merge_asof(sent_df, price_df, on="date", direction="backward")`:
    each sentiment row is annotated with the `Close` of the last price
    row whose date is `≤` the sentiment date, or NaN (here `none`) when
    no such price row exists.

Modelling conventions: timestamps/dates are `Int` (seconds since epoch;
`pd.to_datetime(_, unit="s")` is strictly monotone so order facts are
unchanged), prices and polarities are `Rat`, NaN cells are `Option`,
HTTP exceptions are `Except`, and `sort_values` is a stable sort
(`sortOn` below, a standard stable insertion sort).  The network is a
deterministic parameter `net : Kind → Params → HttpResponse`, and the
external TextBlob polarity function is a parameter `polarityOf`.
-/

/-- One raw social item after Collector normalization (lines 47–50). -/
structure RawItem where
  text : String
  created_utc : Int
  deriving Repr, DecidableEq

/-- One scored sentiment observation (rows built at lines 62–65). -/
structure SentPoint where
  date : Int
  polarity : Rat
  deriving Repr, DecidableEq

/-- One price observation (the `(date, Close)` rows of `get_price_df`). -/
structure PricePoint where
  date : Int
  close : Rat
  deriving Repr, DecidableEq

/-- One output row of `merge_df`: sentiment columns plus the as-of
joined `Close`, `none` when the join misses (NaN in pandas). -/
structure MergedPoint where
  date : Int
  polarity : Rat
  close : Option Rat
  deriving Repr, DecidableEq

/-- Stable insertion of `a` into `l`: `a` goes before the first element
whose key strictly exceeds `a`'s key, hence after all equal keys. -/
def insertRow (key : α → Int) (a : α) : List α → List α
  | [] => [a]
  | b :: l => if key b < key a then b :: insertRow key a l else a :: b :: l

/-- Stable sort by an integer key; models pandas `sort_values("date")`
(with ties kept in input order, the behaviour `merge_asof` relies on). -/
def sortOn (key : α → Int) : List α → List α
  | [] => []
  | a :: l => insertRow key a (sortOn key l)

/-- `pd.merge_asof(sent, price, on="date", direction="backward")` on
already-sorted inputs: each left row picks the last right row whose date
is `≤` its own date (`none` on a miss); with duplicate right dates the
last one in order wins, exactly as `merge_asof` does. -/
def merge_asof_backward (sent : List SentPoint) (price : List PricePoint) :
    List MergedPoint :=
  sent.map fun r =>
    { date := r.date
      polarity := r.polarity
      close := ((price.filter fun q => q.date ≤ r.date).getLast?).map PricePoint.close }

/-- `merge_df` (lines 80–84): sort both frames by `date`, then backward
as-of merge. -/
def merge_df (sent_df : List SentPoint) (price_df : List PricePoint) :
    List MergedPoint :=
  merge_asof_backward (sortOn SentPoint.date sent_df) (sortOn PricePoint.date price_df)

/-- `analyze_sentiments` (lines 57–67), with the TextBlob polarity
function as an explicit parameter.  Builds one row per input entry, then
`pd.DataFrame(rows).sort_values("date")`; on an empty row list the
DataFrame has no `date` column and `sort_values` raises, modelled as
`none`. -/
def analyze_sentiments (polarityOf : String → Rat) (data : List RawItem) :
    Option (List SentPoint) :=
  let rows := data.map fun entry =>
    { date := entry.created_utc, polarity := polarityOf entry.text : SentPoint }
  if rows.isEmpty then none else some (sortOn SentPoint.date rows)

/-- The guard at lines 104–106: the run proceeds past the fetch stage
only when `data` is nonempty (`if not data: st.stop()`). -/
def run_proceeds (data : List RawItem) : Bool :=
  !data.isEmpty

/-- The two Pushshift item kinds iterated at line 31. -/
inductive Kind where
  | submission
  | comment
  deriving Repr, DecidableEq

/-- The query parameters built at lines 33–40. -/
structure Params where
  subreddit : String
  q : String
  size : Nat
  fields : List String
  sortDir : String
  sort_type : String
  deriving Repr, DecidableEq

/-- `params` for one request (lines 33–40). -/
def mkParams (kind : Kind) (sub ticker : String) (post_limit : Nat) : Params :=
  { subreddit := sub
    q := ticker
    size := post_limit
    fields := match kind with
      | .submission => ["title", "selftext", "created_utc"]
      | .comment => ["body", "created_utc"]
    sortDir := "desc"
    sort_type := "created_utc" }

/-- One JSON item of a Pushshift response; `none` models an absent key. -/
structure RedditItem where
  title : Option String
  selftext : Option String
  body : Option String
  created_utc : Option Int
  deriving Repr, DecidableEq

/-- An HTTP response: status code plus the parsed `data` array. -/
structure HttpResponse where
  status : Nat
  data : List RedditItem
  deriving Repr, DecidableEq

/-- `requests` raises `HTTPError` from `raise_for_status` exactly for
status codes in [400, 600). -/
def non_success (resp : HttpResponse) : Prop :=
  400 ≤ resp.status ∧ resp.status < 600

instance (resp : HttpResponse) : Decidable (non_success resp) := by
  unfold non_success; infer_instance

/-- Python `x or ""`: `None` and the empty string (both falsy) give `""`. -/
def pyOrEmpty : Option String → String
  | none => ""
  | some s => if s = "" then "" else s

/-- The `text` built at lines 45–46: submissions concatenate
`(title or "") + " " + (selftext or "")`; comments use `get("body","")`. -/
def itemText (kind : Kind) (item : RedditItem) : String :=
  match kind with
  | .submission => pyOrEmpty item.title ++ " " ++ pyOrEmpty item.selftext
  | .comment => item.body.getD ""

/-- One normalized record appended at lines 47–50: the kind-appropriate
text and `item.get("created_utc", 0)`. -/
def processItem (kind : Kind) (item : RedditItem) : RawItem :=
  { text := itemText kind item, created_utc := item.created_utc.getD 0 }

/-- The (kind, subreddit) pairs in the order the two nested loops at
lines 31–32 issue requests. -/
def fetchPairs (subreddits : List String) : List (Kind × String) :=
  [Kind.submission, Kind.comment].flatMap fun kind =>
    subreddits.map fun sub => (kind, sub)

/-- The request loop of `fetch_reddit_data`: for each pair issue the
request, `raise_for_status` (an exception aborts the whole run,
discarding everything accumulated so far), else append the normalized
items and continue. -/
def fetchLoop (net : Kind → Params → HttpResponse) (ticker : String)
    (post_limit : Nat) : List (Kind × String) → Except Nat (List RawItem)
  | [] => Except.ok []
  | (kind, sub) :: rest =>
    let resp := net kind (mkParams kind sub ticker post_limit)
    if non_success resp then
      Except.error resp.status
    else
      match fetchLoop net ticker post_limit rest with
      | Except.error e => Except.error e
      | Except.ok tail => Except.ok ((resp.data.map (processItem kind)) ++ tail)

/-- `fetch_reddit_data` (lines 29–51) with the network as an explicit
deterministic parameter. -/
def fetch_reddit_data (net : Kind → Params → HttpResponse) (ticker : String)
    (subreddits : List String) (post_limit : Nat) : Except Nat (List RawItem) :=
  fetchLoop net ticker post_limit (fetchPairs subreddits)

/-- Sortedness (non-decreasing) by an integer key. -/
def sortedOn (key : α → Int) (l : List α) : Prop :=
  l.Pairwise fun a b => key a ≤ key b

instance (key : α → Int) (l : List α) : Decidable (sortedOn key l) := by
  unfold sortedOn; exact List.instDecidablePairwise l

theorem length_insertRow (key : α → Int) (a : α) (l : List α) :
    (insertRow key a l).length = l.length + 1 := by
  induction l with
  | nil => rfl
  | cons b t ih => simp only [insertRow]; split <;> simp [ih]

theorem length_sortOn (key : α → Int) (l : List α) :
    (sortOn key l).length = l.length := by
  induction l with
  | nil => rfl
  | cons a t ih => simp [sortOn, length_insertRow, ih]

theorem mem_insertRow (key : α → Int) (a x : α) (l : List α) :
    x ∈ insertRow key a l ↔ x = a ∨ x ∈ l := by
  induction l with
  | nil => simp [insertRow]
  | cons b t ih =>
    simp only [insertRow]
    split
    · simp only [List.mem_cons, ih]
      tauto
    · simp only [List.mem_cons]

theorem mem_sortOn (key : α → Int) (x : α) (l : List α) :
    x ∈ sortOn key l ↔ x ∈ l := by
  induction l with
  | nil => simp [sortOn]
  | cons a t ih => simp [sortOn, mem_insertRow, ih]

theorem sortedOn_insertRow (key : α → Int) (a : α) (l : List α)
    (h : sortedOn key l) : sortedOn key (insertRow key a l) := by
  induction l with
  | nil => simp [insertRow, sortedOn]
  | cons b t ih =>
    obtain ⟨hb, ht⟩ := List.pairwise_cons.1 h
    simp only [insertRow]
    split
    · rename_i hlt
      refine List.pairwise_cons.2 ⟨?_, ih ht⟩
      intro x hx
      rcases (mem_insertRow key a x t).1 hx with rfl | hx
      · exact le_of_lt hlt
      · exact hb x hx
    · rename_i hge
      refine List.pairwise_cons.2 ⟨?_, h⟩
      intro x hx
      have hab : key a ≤ key b := le_of_not_lt hge
      rcases List.mem_cons.1 hx with rfl | hx
      · exact hab
      · exact le_trans hab (hb x hx)

theorem sortedOn_sortOn (key : α → Int) (l : List α) :
    sortedOn key (sortOn key l) := by
  induction l with
  | nil => simp [sortOn, sortedOn]
  | cons a t ih => exact sortedOn_insertRow key a _ ih

theorem sortOn_of_sorted (key : α → Int) (l : List α)
    (h : sortedOn key l) : sortOn key l = l := by
  induction l with
  | nil => rfl
  | cons a t ih =>
    obtain ⟨ha, ht⟩ := List.pairwise_cons.1 h
    rw [sortOn, ih ht]
    cases t with
    | nil => rfl
    | cons b t2 =>
      have : ¬ key b < key a := not_lt.2 (ha b (List.mem_cons_self b t2))
      simp [insertRow, this]

theorem key_le_getLast_of_sorted (key : α → Int) (l : List α)
    (h : sortedOn key l) (x : α) (hx : x ∈ l) (q : α)
    (hq : l.getLast? = some q) : key x ≤ key q := by
  obtain ⟨ys, rfl⟩ := List.getLast?_eq_some_iff.1 hq
  rcases List.mem_append.1 hx with h1 | h1
  · exact (List.pairwise_append.1 h).2.2 x h1 q (List.mem_singleton.2 rfl)
  · rw [List.mem_singleton.1 h1]

theorem sortedOn_filter (key : α → Int) (p : α → Bool) (l : List α)
    (h : sortedOn key l) : sortedOn key (l.filter p) :=
  List.Pairwise.sublist (List.filter_sublist l) h

/-- The backward as-of lookup misses exactly when every price is
strictly later than the probe date. -/
theorem lastLE_eq_none_iff (P : List PricePoint) (d : Int) :
    ((P.filter fun q => q.date ≤ d).getLast? = none) ↔ ∀ p ∈ P, d < p.date := by
  rw [List.getLast?_eq_none_iff, List.filter_eq_nil_iff]
  constructor
  · intro h p hp
    have := h p hp
    simpa [not_le] using this
  · intro h p hp
    simp [not_le.2 (h p hp)]

/-- On a sorted price list, a backward as-of hit is a qualifying price
point whose date dominates every other qualifying date. -/
theorem lastLE_some (P : List PricePoint) (d : Int)
    (hP : sortedOn PricePoint.date P) (q : PricePoint)
    (hq : (P.filter fun r => r.date ≤ d).getLast? = some q) :
    q ∈ P ∧ q.date ≤ d ∧ ∀ p ∈ P, p.date ≤ d → p.date ≤ q.date := by
  have hmem := List.mem_of_getLast?_eq_some hq
  have hq' := List.mem_filter.1 hmem
  refine ⟨hq'.1, by simpa using hq'.2, ?_⟩
  intro p hp hpd
  have hpf : p ∈ P.filter fun r => r.date ≤ d := List.mem_filter.2 ⟨hp, by simpa⟩
  exact key_le_getLast_of_sorted PricePoint.date _ (sortedOn_filter _ _ _ hP) p hpf q hq

theorem merge_df_length (S : List SentPoint) (P : List PricePoint) :
    (merge_df S P).length = S.length := by
  simp [merge_df, merge_asof_backward, length_sortOn]

/-- Row `i` of `merge_df` on sorted inputs: sentiment columns of `S.get i`
plus the backward as-of lookup into `P`. -/
theorem merge_df_get_of_sorted (S : List SentPoint) (P : List PricePoint)
    (hS : sortedOn SentPoint.date S) (hP : sortedOn PricePoint.date P)
    (i : Nat) (h : i < S.length) (h2 : i < (merge_df S P).length) :
    (merge_df S P).get ⟨i, h2⟩ =
      { date := (S.get ⟨i, h⟩).date
        polarity := (S.get ⟨i, h⟩).polarity
        close := ((P.filter fun q => q.date ≤ (S.get ⟨i, h⟩).date).getLast?).map
          PricePoint.close } := by
  have heq : merge_df S P = S.map fun r =>
      { date := r.date
        polarity := r.polarity
        close := ((P.filter fun q => q.date ≤ r.date).getLast?).map PricePoint.close
        : MergedPoint } := by
    rw [merge_df, sortOn_of_sorted _ _ hS, sortOn_of_sorted _ _ hP]
    rfl
  rw [List.get_of_eq heq ⟨i, h2⟩]
  simp

/-- Inserting a key-minimal element puts it in front. -/
theorem insertRow_of_le (key : α → Int) (a : α) (l : List α)
    (h : ∀ b ∈ l, key a ≤ key b) : insertRow key a l = a :: l := by
  cases l with
  | nil => rfl
  | cons b t => simp [insertRow, not_lt.2 (h b (List.mem_cons_self b t))]

theorem getLast?_cons_of_ne_nil (a : α) (l : List α) (h : l ≠ []) :
    (a :: l).getLast? = l.getLast? := by
  cases l with
  | nil => exact absurd rfl h
  | cons b t => exact List.getLast?_cons_cons

/-- Python `x or ""` agrees with defaulting the absent value to `""`. -/
theorem pyOrEmpty_eq_getD (o : Option String) : pyOrEmpty o = o.getD "" := by
  cases o with
  | none => rfl
  | some s =>
    by_cases h : s = "" <;> simp [pyOrEmpty, h]

/-- Row `i` of `merge_df` in general: the sorted sentiment row's columns
plus the backward as-of lookup into the sorted price list. -/
theorem merge_df_get (S : List SentPoint) (P : List PricePoint)
    (i : Nat) (h : i < (sortOn SentPoint.date S).length)
    (h2 : i < (merge_df S P).length) :
    (merge_df S P).get ⟨i, h2⟩ =
      { date := ((sortOn SentPoint.date S).get ⟨i, h⟩).date
        polarity := ((sortOn SentPoint.date S).get ⟨i, h⟩).polarity
        close := (((sortOn PricePoint.date P).filter fun q =>
            q.date ≤ ((sortOn SentPoint.date S).get ⟨i, h⟩).date).getLast?).map
          PricePoint.close } := by
  simp [merge_df, merge_asof_backward]

example : merge_df [⟨0, 1⟩, ⟨10, -1⟩] [⟨-5, 100⟩, ⟨5, 105⟩] =
    [⟨0, 1, some 100⟩, ⟨10, -1, some 105⟩] := by decide

example : merge_df [⟨1, 0⟩] [⟨0, 1⟩, ⟨0, 2⟩, ⟨1, 3⟩] = [⟨1, 0, some 3⟩] := by decide

example : merge_df [⟨1, 0⟩] [] = [⟨1, 0, none⟩] := by decide

/-- C2: `merge_df` produces exactly one output row per sentiment row,
whatever the price list is; in particular merging an empty sentiment
list gives the empty list for every price list. -/
theorem merge_cardinality (S : List SentPoint) (P : List PricePoint) :
    (merge_df S P).length = S.length ∧ merge_df [] P = [] :=
  ⟨merge_df_length S P, rfl⟩

/-- C3: with an empty price list, every row `merge_df` produces has a
`none` (NaN) close: the join miss is not an error and the null is kept
in the output row. -/
theorem merge_empty_prices_close_none (S : List SentPoint) :
    ∀ row ∈ merge_df S [], row.close = none := by
  intro row hrow
  unfold merge_df merge_asof_backward at hrow
  obtain ⟨r, hr, rfl⟩ := List.mem_map.1 hrow
  rfl

theorem merge_empty_prices_close_none_witness :
    (⟨1, 0, none⟩ : MergedPoint) ∈ merge_df [⟨1, 0⟩] [] ∧
    (⟨1, 0, none⟩ : MergedPoint).close = none :=
  ⟨by decide, merge_empty_prices_close_none [⟨1, 0⟩] ⟨1, 0, none⟩ (by decide)⟩

/-- C8: `merge_df` is a deterministic pure function of its two inputs:
any two runs on the same inputs produce the same result.  (Purity is
structural here: the embedding of `merge_df` reads no state and performs
no effects, matching the source, which only sorts, merges and
returns.) -/
theorem merge_pure_deterministic (S : List SentPoint) (P : List PricePoint)
    (r1 r2 : List MergedPoint) (h1 : r1 = merge_df S P) (h2 : r2 = merge_df S P) :
    r1 = r2 :=
  h1.trans h2.symm

theorem merge_pure_deterministic_witness :
    ([⟨0, 1, some 2⟩] : List MergedPoint) = merge_df [⟨0, 1⟩] [⟨0, 2⟩] ∧
    ([⟨0, 1, some 2⟩] : List MergedPoint) = merge_df [⟨0, 1⟩] [⟨0, 2⟩] ∧
    ([⟨0, 1, some 2⟩] : List MergedPoint) = ([⟨0, 1, some 2⟩] : List MergedPoint) :=
  ⟨by decide, by decide,
    merge_pure_deterministic [⟨0, 1⟩] [⟨0, 2⟩] _ _ (by decide) (by decide)⟩

/-- C10: `analyze_sentiments` fails (KeyError from
`pd.DataFrame([]).sort_values("date")`, modelled as `none`) exactly on
the empty input, which is exactly the case the caller's guard at lines
104–106 (`if not data: st.stop()`) prevents from reaching it. -/
theorem analyze_raises_iff_empty (polarityOf : String → Rat) (data : List RawItem) :
    (analyze_sentiments polarityOf data = none ↔ data = []) ∧
    (analyze_sentiments polarityOf data = none ↔ run_proceeds data = false) := by
  unfold analyze_sentiments run_proceeds
  cases data <;> simp

/-- C5 counterexample: on the empty input `analyze_sentiments` raises
(modelled `none`) instead of returning the empty sentiment series, so
"for every input sequence, one output point per input item" fails at
`[]`. -/
theorem analyze_empty_counterexample :
    analyze_sentiments (fun _ => 0) [] = none ∧
    analyze_sentiments (fun _ => 0) [] ≠ some [] :=
  ⟨rfl, by decide⟩

/-- C5 (amended): for every *nonempty* input sequence,
`analyze_sentiments` succeeds and produces exactly one output point per
input item — no filtering, including empty-text items — and its output
is sorted non-decreasing by `date`. -/
theorem analyze_nonempty_one_point_per_item (polarityOf : String → Rat)
    (data : List RawItem) (hne : data ≠ []) :
    ∃ out, analyze_sentiments polarityOf data = some out ∧
      out.length = data.length ∧ sortedOn SentPoint.date out := by
  unfold analyze_sentiments
  cases data with
  | nil => exact absurd rfl hne
  | cons a t =>
    refine ⟨sortOn SentPoint.date ((a :: t).map fun entry =>
      { date := entry.created_utc, polarity := polarityOf entry.text }),
      ?_, ?_, sortedOn_sortOn _ _⟩
    · simp
    · simp [length_sortOn]

/-- C1: for sorted inputs, the merged `close` of the row for sentiment
point `S.get i` is `none` exactly when no price point's date is `≤` its
date, and otherwise is the `close` of a qualifying price point whose
date dominates every qualifying date (the latest at-or-before price). -/
theorem merge_close_is_latest_at_or_before (S : List SentPoint) (P : List PricePoint)
    (hS : sortedOn SentPoint.date S) (hP : sortedOn PricePoint.date P)
    (i : Nat) (h : i < S.length) (h2 : i < (merge_df S P).length) :
    (((merge_df S P).get ⟨i, h2⟩).close = none ↔
      ∀ p ∈ P, (S.get ⟨i, h⟩).date < p.date) ∧
    (∀ c, ((merge_df S P).get ⟨i, h2⟩).close = some c →
      ∃ p ∈ P, p.date ≤ (S.get ⟨i, h⟩).date ∧ p.close = c ∧
        ∀ q ∈ P, q.date ≤ (S.get ⟨i, h⟩).date → q.date ≤ p.date) := by
  rw [merge_df_get_of_sorted S P hS hP i h h2]
  constructor
  · simp [lastLE_eq_none_iff]
  · intro c hc
    obtain ⟨q, hq, hqc⟩ := Option.map_eq_some'.1 hc
    obtain ⟨hqP, hqd, hmax⟩ := lastLE_some P _ hP q hq
    exact ⟨q, hqP, hqd, hqc, hmax⟩

theorem merge_close_is_latest_at_or_before_witness :
    sortedOn SentPoint.date [⟨0, 1⟩] ∧ sortedOn PricePoint.date [⟨-5, 100⟩] ∧
    ((((merge_df [⟨0, 1⟩] [⟨-5, 100⟩]).get ⟨0, by decide⟩).close = none ↔
        ∀ p ∈ ([⟨-5, 100⟩] : List PricePoint),
          (([⟨0, 1⟩] : List SentPoint).get ⟨0, by decide⟩).date < p.date) ∧
      (∀ c, ((merge_df [⟨0, 1⟩] [⟨-5, 100⟩]).get ⟨0, by decide⟩).close = some c →
        ∃ p ∈ ([⟨-5, 100⟩] : List PricePoint),
          p.date ≤ (([⟨0, 1⟩] : List SentPoint).get ⟨0, by decide⟩).date ∧
          p.close = c ∧
          ∀ q ∈ ([⟨-5, 100⟩] : List PricePoint),
            q.date ≤ (([⟨0, 1⟩] : List SentPoint).get ⟨0, by decide⟩).date →
              q.date ≤ p.date)) :=
  ⟨by decide, by decide,
    merge_close_is_latest_at_or_before [⟨0, 1⟩] [⟨-5, 100⟩]
      (by decide) (by decide) 0 (by decide) (by decide)⟩

/-- C4 counterexample: prices `[⟨0,1⟩, ⟨0,2⟩, ⟨1,3⟩]` are sorted and
hold two points with the same date `0`; the sentiment point has date
`1 ≥ 0`, yet the merged close is `3` (the later date-1 price), not the
close `2` of the last date-0 point, refuting the claim as stated. -/
theorem merge_duplicate_date_counterexample :
    sortedOn PricePoint.date [⟨0, 1⟩, ⟨0, 2⟩, ⟨1, 3⟩] ∧
    (0 : Int) ≤ 1 ∧
    (merge_df [⟨1, 0⟩] [⟨0, 1⟩, ⟨0, 2⟩, ⟨1, 3⟩]).map MergedPoint.close = [some 3] ∧
    some (3 : Rat) ≠ some (2 : Rat) := by
  refine ⟨by decide, by decide, by decide, by decide⟩

/-- C4 (amended): for a sorted price list containing duplicate-date
points `p1` and `p2` (in that input order) and a sentiment point whose
date is at or after that duplicated date, *provided every price point
after `p2` is strictly later than the sentiment date* (so the
duplicated date is the qualifying maximum), `merge_df` attaches the
close of the last equal-date point in input order, `p2`: latest wins
for same-timestamp ties. -/
theorem merge_duplicate_date_latest_wins (S : List SentPoint)
    (A B C : List PricePoint) (p1 p2 : PricePoint)
    (hS : sortedOn SentPoint.date S)
    (hP : sortedOn PricePoint.date (A ++ p1 :: (B ++ p2 :: C)))
    (hdup : p1.date = p2.date)
    (i : Nat) (h : i < S.length)
    (h2 : i < (merge_df S (A ++ p1 :: (B ++ p2 :: C))).length)
    (hqual : p2.date ≤ (S.get ⟨i, h⟩).date)
    (hlate : ∀ q ∈ C, (S.get ⟨i, h⟩).date < q.date) :
    ((merge_df S (A ++ p1 :: (B ++ p2 :: C))).get ⟨i, h2⟩).close = some p2.close := by
  rw [merge_df_get_of_sorted S _ hS hP i h h2]
  have hC : C.filter (fun q => q.date ≤ (S.get ⟨i, h⟩).date) = [] :=
    List.filter_eq_nil_iff.2 fun q hq => by
      simpa [not_le] using hlate q hq
  have hp1 : p1.date ≤ (S.get ⟨i, h⟩).date := hdup ▸ hqual
  show (((A ++ p1 :: (B ++ p2 :: C)).filter
      fun q => q.date ≤ (S.get ⟨i, h⟩).date).getLast?).map PricePoint.close =
    some p2.close
  rw [List.filter_append, List.filter_cons_of_pos (by simpa using hp1),
    List.filter_append, List.filter_cons_of_pos (by simpa using hqual), hC,
    List.getLast?_append, getLast?_cons_of_ne_nil p1 _ (by simp),
    List.getLast?_append]
  simp

theorem merge_duplicate_date_latest_wins_witness :
    sortedOn SentPoint.date [⟨1, 0⟩] ∧
    sortedOn PricePoint.date
      ([] ++ (⟨0, 1⟩ : PricePoint) :: ([] ++ (⟨0, 2⟩ : PricePoint) :: [⟨5, 9⟩])) ∧
    (⟨0, 1⟩ : PricePoint).date = (⟨0, 2⟩ : PricePoint).date ∧
    (⟨0, 2⟩ : PricePoint).date ≤ (([⟨1, 0⟩] : List SentPoint).get ⟨0, by decide⟩).date ∧
    (∀ q ∈ ([⟨5, 9⟩] : List PricePoint),
      (([⟨1, 0⟩] : List SentPoint).get ⟨0, by decide⟩).date < q.date) ∧
    ((merge_df [⟨1, 0⟩]
        ([] ++ (⟨0, 1⟩ : PricePoint) :: ([] ++ (⟨0, 2⟩ : PricePoint) :: [⟨5, 9⟩]))).get
      ⟨0, by decide⟩).close = some (⟨0, 2⟩ : PricePoint).close :=
  ⟨by decide, by decide, by decide, by decide, by decide,
    merge_duplicate_date_latest_wins [⟨1, 0⟩] [] [] [⟨5, 9⟩] ⟨0, 1⟩ ⟨0, 2⟩
      (by decide) (by decide) (by decide) 0 (by decide) (by decide)
      (by decide) (by decide)⟩

/-- C9: inserting a price point strictly earlier than every existing
price never changes the merged row of a sentiment point that already
had a qualifying (at-or-before) price among the existing ones. -/
theorem merge_unchanged_by_earlier_price (S : List SentPoint) (P : List PricePoint)
    (p0 : PricePoint) (hp0 : ∀ p ∈ P, p0.date < p.date)
    (i : Nat) (h1 : i < (merge_df S P).length) (h2 : i < (merge_df S (p0 :: P)).length)
    (hex : ∃ p ∈ P, p.date ≤ ((merge_df S P).get ⟨i, h1⟩).date) :
    (merge_df S (p0 :: P)).get ⟨i, h2⟩ = (merge_df S P).get ⟨i, h1⟩ := by
  have hi : i < (sortOn SentPoint.date S).length := by
    rw [length_sortOn]
    rw [merge_df_length] at h1
    exact h1
  rw [merge_df_get S P i hi h1] at hex
  rw [merge_df_get S (p0 :: P) i hi h2, merge_df_get S P i hi h1]
  have hsort : sortOn PricePoint.date (p0 :: P) = p0 :: sortOn PricePoint.date P := by
    rw [sortOn]
    exact insertRow_of_le _ _ _ fun b hb =>
      le_of_lt (hp0 b ((mem_sortOn _ _ _).1 hb))
  rw [hsort]
  obtain ⟨p, hpP, hpd⟩ := hex
  have hpd' : p.date ≤ ((sortOn SentPoint.date S).get ⟨i, hi⟩).date := hpd
  have hpL : p ∈ (sortOn PricePoint.date P).filter
      fun q => q.date ≤ ((sortOn SentPoint.date S).get ⟨i, hi⟩).date :=
    List.mem_filter.2 ⟨(mem_sortOn _ _ _).2 hpP, by simpa using hpd'⟩
  have hne : ((sortOn PricePoint.date P).filter
      fun q => q.date ≤ ((sortOn SentPoint.date S).get ⟨i, hi⟩).date) ≠ [] :=
    List.ne_nil_of_mem hpL
  simp only [MergedPoint.mk.injEq, true_and]
  by_cases hp0d : p0.date ≤ ((sortOn SentPoint.date S).get ⟨i, hi⟩).date
  · rw [List.filter_cons_of_pos (by simpa using hp0d),
      getLast?_cons_of_ne_nil _ _ hne]
  · rw [List.filter_cons_of_neg (by simpa using hp0d)]

theorem merge_unchanged_by_earlier_price_witness :
    (∀ p ∈ ([⟨5, 7⟩] : List PricePoint), (⟨-5, 2⟩ : PricePoint).date < p.date) ∧
    (∃ p ∈ ([⟨5, 7⟩] : List PricePoint),
      p.date ≤ ((merge_df [⟨10, 1⟩] [⟨5, 7⟩]).get ⟨0, by decide⟩).date) ∧
    (merge_df [⟨10, 1⟩] ((⟨-5, 2⟩ : PricePoint) :: [⟨5, 7⟩])).get ⟨0, by decide⟩ =
      (merge_df [⟨10, 1⟩] [⟨5, 7⟩]).get ⟨0, by decide⟩ :=
  ⟨by decide, by decide,
    merge_unchanged_by_earlier_price [⟨10, 1⟩] [⟨5, 7⟩] ⟨-5, 2⟩
      (by decide) 0 (by decide) (by decide) (by decide)⟩

theorem analyze_nonempty_one_point_per_item_witness :
    ([⟨"", 0⟩] : List RawItem) ≠ [] ∧
    ∃ out, analyze_sentiments (fun _ => 0) [⟨"", 0⟩] = some out ∧
      out.length = ([⟨"", 0⟩] : List RawItem).length ∧ sortedOn SentPoint.date out :=
  ⟨by decide, analyze_nonempty_one_point_per_item (fun _ => 0) [⟨"", 0⟩] (by decide)⟩

/-- A network stub whose every response is HTTP 500 (server error). -/
def badNet : Kind → Params → HttpResponse := fun _ _ => ⟨500, []⟩

/-- A network stub returning HTTP 200 with one item missing all fields. -/
def goodNet : Kind → Params → HttpResponse :=
  fun _ _ => ⟨200, [⟨none, none, none, none⟩]⟩

/-- If any request in the loop gets a non-success response, the whole
loop evaluates to the exception (first failing status); nothing
accumulated before the failure survives. -/
theorem fetchLoop_error_of_bad (net : Kind → Params → HttpResponse)
    (ticker : String) (post_limit : Nat) (pairs : List (Kind × String))
    (hbad : ∃ ks ∈ pairs,
      non_success (net ks.1 (mkParams ks.1 ks.2 ticker post_limit))) :
    ∃ e, fetchLoop net ticker post_limit pairs = Except.error e := by
  induction pairs with
  | nil => simp at hbad
  | cons ks rest ih =>
    obtain ⟨k, s⟩ := ks
    obtain ⟨ks', hmem, hbad'⟩ := hbad
    by_cases hh : non_success (net k (mkParams k s ticker post_limit))
    · exact ⟨(net k (mkParams k s ticker post_limit)).status, by simp [fetchLoop, hh]⟩
    · rcases List.mem_cons.1 hmem with rfl | hmem'
      · exact absurd hbad' hh
      · obtain ⟨e, he⟩ := ih ⟨ks', hmem', hbad'⟩
        exact ⟨e, by simp [fetchLoop, hh, he]⟩

/-- C6: if any retrieval request issued by `fetch_reddit_data` gets a
non-success status, the whole run fails: `raise_for_status` propagates
the exception immediately, the function returns no partial results (the
`Except.error` carries no items), and no retry is attempted. -/
theorem fetch_failure_fatal (net : Kind → Params → HttpResponse)
    (ticker : String) (subreddits : List String) (post_limit : Nat)
    (hbad : ∃ ks ∈ fetchPairs subreddits,
      non_success (net ks.1 (mkParams ks.1 ks.2 ticker post_limit))) :
    ∃ e, fetch_reddit_data net ticker subreddits post_limit = Except.error e :=
  fetchLoop_error_of_bad net ticker post_limit (fetchPairs subreddits) hbad

theorem fetch_failure_fatal_witness :
    (∃ ks ∈ fetchPairs ["CryptoCurrency"],
      non_success (badNet ks.1 (mkParams ks.1 ks.2 "BTC" 50))) ∧
    ∃ e, fetch_reddit_data badNet "BTC" ["CryptoCurrency"] 50 = Except.error e :=
  ⟨by decide, fetch_failure_fatal badNet "BTC" ["CryptoCurrency"] 50 (by decide)⟩

/-- Every item of a successful fetch is the normalization of some
response item by `processItem`. -/
theorem fetchLoop_ok_shape (net : Kind → Params → HttpResponse)
    (ticker : String) (post_limit : Nat) :
    ∀ pairs res, fetchLoop net ticker post_limit pairs = Except.ok res →
      ∀ r ∈ res, ∃ kind item, r = processItem kind item := by
  intro pairs
  induction pairs with
  | nil =>
    intro res hres r hr
    simp only [fetchLoop, Except.ok.injEq] at hres
    subst hres
    simp at hr
  | cons ks rest ih =>
    obtain ⟨k, s⟩ := ks
    intro res hres r hr
    by_cases hh : non_success (net k (mkParams k s ticker post_limit))
    · simp [fetchLoop, hh] at hres
    · rcases hloop : fetchLoop net ticker post_limit rest with e | tail
      · simp [fetchLoop, hh, hloop] at hres
      · simp only [fetchLoop, hh, if_false, hloop, Except.ok.injEq] at hres
        subst hres
        rcases List.mem_append.1 hr with h1 | h1
        · obtain ⟨item, hitem, rfl⟩ := List.mem_map.1 h1
          exact ⟨k, item, rfl⟩
        · exact ih tail hloop r h1

/-- C7: every RawItem a successful fetch returns is a normalized
response item: posts concatenate title and body space-joined with
absent fields defaulted to `""`, comments use the body directly
defaulted to `""`, and an absent timestamp defaults to epoch `0` — so
text and timestamp are always defined. -/
theorem fetched_items_defaults (net : Kind → Params → HttpResponse)
    (ticker : String) (subreddits : List String) (post_limit : Nat)
    (res : List RawItem)
    (hok : fetch_reddit_data net ticker subreddits post_limit = Except.ok res) :
    ∀ r ∈ res, ∃ kind item, r = processItem kind item ∧
      r.created_utc = item.created_utc.getD 0 ∧
      (kind = Kind.submission →
        r.text = item.title.getD "" ++ " " ++ item.selftext.getD "") ∧
      (kind = Kind.comment → r.text = item.body.getD "") := by
  intro r hr
  obtain ⟨kind, item, rfl⟩ := fetchLoop_ok_shape net ticker post_limit _ res hok r hr
  refine ⟨kind, item, rfl, rfl, ?_, ?_⟩
  · rintro rfl
    show itemText Kind.submission item = _
    simp [itemText, pyOrEmpty_eq_getD]
  · rintro rfl
    rfl

theorem fetched_items_defaults_witness :
    fetch_reddit_data goodNet "BTC" ["x"] 50 = Except.ok [⟨" ", 0⟩, ⟨"", 0⟩] ∧
    (⟨" ", 0⟩ : RawItem) ∈ ([⟨" ", 0⟩, ⟨"", 0⟩] : List RawItem) ∧
    ∃ kind item, (⟨" ", 0⟩ : RawItem) = processItem kind item ∧
      (⟨" ", 0⟩ : RawItem).created_utc = item.created_utc.getD 0 ∧
      (kind = Kind.submission →
        (⟨" ", 0⟩ : RawItem).text = item.title.getD "" ++ " " ++ item.selftext.getD "") ∧
      (kind = Kind.comment → (⟨" ", 0⟩ : RawItem).text = item.body.getD "") :=
  ⟨rfl, by decide,
    fetched_items_defaults goodNet "BTC" ["x"] 50 [⟨" ", 0⟩, ⟨"", 0⟩] rfl
      ⟨" ", 0⟩ (by decide)⟩
